import Mathlib

/-!
Shallow embedding of the `myne` repository (two Python scripts, `gr.py` and
`myne.py`) together with proofs about the behaviour its specification
describes.

`gr.py` is a watchdog daemon: it installs itself, waits until the host has
been up for at least 1800 s, then polls a sentinel file's mtime every 420 s
and forces a system power-off (a sysrq `o` write) once the file is more than
36 hours stale.

`myne.py` is a worker supervisor: it installs itself, partitions the CPU
count into worker roles, and keeps worker processes running, killing them all
on interrupt or on a fatal error.

External effects (filesystem reads, process-table queries, clock samples,
sleeps, writes) are modelled by explicit inputs and by event traces.
-/

namespace Myne

/-! ## gr.py: sentinel watchdog check -/

/-- Result of reading the sentinel file's mtime (`os.path.getmtime`): either
the file exists and its mtime is readable, or it is missing
(`FileNotFoundError`), or some other error occurs while reading it. -/
inductive MtimeResult where
  | found (mtime : Int)
  | missing
  | readError
  deriving DecidableEq

/-- Staleness threshold of `gr.py check_file_modification`:
`timedelta(hours=36)`, in seconds. -/
def stalenessThreshold : Int := 36 * 60 * 60

/-- `gr.py check_file_modification`: true when the file's mtime is readable
and `now - mtime > timedelta(hours=36)`; on `FileNotFoundError` and on any
other exception it returns `False`. Times are in seconds. -/
def check_file_modification (now : Int) (r : MtimeResult) : Bool :=
  match r with
  | .found mtime => decide (now - mtime > stalenessThreshold)
  | .missing => false
  | .readError => false

/-! ## gr.py: main loop as an event trace

The watchdog loop of `gr.py main` is modelled as a function from the finite
observed sequence of sentinel-check results to the trace of externally
visible events the loop performs. -/

/-- Externally visible events of `gr.py`: a `time.sleep` of some number of
seconds, a sentinel check returning a result, and a one-character write to
`/proc/sysrq-trigger`. -/
inductive GrEvent where
  | sleep (secs : Int)
  | sentinelCheck (result : Bool)
  | sysrqWrite (c : Char)
  deriving DecidableEq

/-- `gr.py sysrq_commands`: the command characters written on shutdown
(the r/e/i/u/s entries are commented out in the source; only `o` remains). -/
def sysrq_commands : List Char := ['o']

/-- Events of `gr.py shutdown_system`: each sysrq command is written, followed
by a `time.sleep(1)`. -/
def shutdown_system_events : List GrEvent :=
  sysrq_commands.flatMap (fun c => [.sysrqWrite c, .sleep 1])

/-- The steady-state loop of `gr.py main`: each tick checks the sentinel;
if triggered it runs `shutdown_system()` and breaks, otherwise it sleeps
420 s and repeats. `ticks` is the finite observed sequence of
`check_file_modification` results. -/
def watchdog_loop : List Bool → List GrEvent
  | [] => []
  | b :: rest =>
      .sentinelCheck b ::
        (if b then shutdown_system_events else .sleep 420 :: watchdog_loop rest)

/-- The pre-loop body of `gr.py main` after the install check: sample uptime
(`none` models `get_system_uptime` returning `None`, which raises and ends
the run with no loop events); if the uptime is below 1800 s, sleep
`1800 - uptime` seconds; then run the watchdog loop. -/
def gr_main_run (uptime : Option Int) (ticks : List Bool) : List GrEvent :=
  match uptime with
  | none => []
  | some u =>
      (if u < 1800 then [GrEvent.sleep (1800 - u)] else []) ++ watchdog_loop ticks

/-- Number of power-off command writes (sysrq `o`) in a trace. -/
def powerOffWrites : List GrEvent → Nat
  | [] => 0
  | .sysrqWrite c :: rest => (if c = 'o' then 1 else 0) + powerOffWrites rest
  | .sleep _ :: rest => powerOffWrites rest
  | .sentinelCheck _ :: rest => powerOffWrites rest

/-- Trace of a run of `n` unsuccessful ticks: each checks the sentinel,
sees `false`, and sleeps 420 s. -/
def noTriggerRun (n : Nat) : List GrEvent :=
  (List.replicate n [GrEvent.sentinelCheck false, .sleep 420]).flatten

/-! ### Helper lemmas about the watchdog trace -/

lemma noTriggerRun_succ (n : Nat) :
    noTriggerRun (n + 1) =
      GrEvent.sentinelCheck false :: GrEvent.sleep 420 :: noTriggerRun n := by
  simp [noTriggerRun, List.replicate_succ]

lemma powerOffWrites_append (a b : List GrEvent) :
    powerOffWrites (a ++ b) = powerOffWrites a + powerOffWrites b := by
  induction a with
  | nil => simp [powerOffWrites]
  | cons e rest ih =>
      match e with
      | .sleep s => simpa [powerOffWrites] using ih
      | .sentinelCheck r => simpa [powerOffWrites] using ih
      | .sysrqWrite c => simp [powerOffWrites, ih]; omega

lemma powerOffWrites_noTriggerRun (n : Nat) :
    powerOffWrites (noTriggerRun n) = 0 := by
  induction n with
  | zero => rfl
  | succ n ih => rw [noTriggerRun_succ]; simpa [powerOffWrites] using ih

lemma watchdog_loop_of_any (ticks : List Bool) (h : ticks.any id = true) :
    watchdog_loop ticks =
      noTriggerRun (ticks.takeWhile (· = false)).length ++
        GrEvent.sentinelCheck true :: shutdown_system_events := by
  induction ticks with
  | nil => simp at h
  | cons b rest ih =>
      cases b with
      | true => simp [watchdog_loop, noTriggerRun]
      | false =>
          simp only [List.any_cons, id_eq, Bool.false_or] at h
          simp only [watchdog_loop, if_neg Bool.false_ne_true, ih h,
            List.takeWhile_cons]
          norm_num [noTriggerRun_succ]

lemma watchdog_loop_of_none (ticks : List Bool) (h : ticks.any id = false) :
    watchdog_loop ticks = noTriggerRun ticks.length := by
  induction ticks with
  | nil => rfl
  | cons b rest ih =>
      cases b with
      | true => simp at h
      | false =>
          simp only [List.any_cons, id_eq, Bool.false_or] at h
          simp [watchdog_loop, ih h, noTriggerRun_succ]

/-- C1: in watchdog mode, once the sentinel check returns true the fail-safe
action (writing the power-off command `o` to `/proc/sysrq-trigger`) is
invoked exactly once and the polling loop terminates immediately afterwards
(the trace ends with `shutdown_system`'s events); the fail-safe is never
invoked on a tick where the check returned false (a trace of only false
ticks is checks and sleeps, with zero power-off writes). -/
theorem watchdog_failsafe_exactly_once (ticks : List Bool) :
    powerOffWrites (watchdog_loop ticks) = (if ticks.any id then 1 else 0) ∧
    (ticks.any id = true →
      watchdog_loop ticks =
        noTriggerRun (ticks.takeWhile (· = false)).length ++
          GrEvent.sentinelCheck true :: shutdown_system_events) ∧
    (ticks.any id = false → watchdog_loop ticks = noTriggerRun ticks.length) := by
  refine ⟨?_, watchdog_loop_of_any ticks, watchdog_loop_of_none ticks⟩
  cases h : ticks.any id with
  | true =>
      rw [watchdog_loop_of_any ticks h, powerOffWrites_append,
        powerOffWrites_noTriggerRun]
      simp [powerOffWrites, shutdown_system_events, sysrq_commands]
  | false =>
      rw [watchdog_loop_of_none ticks h, powerOffWrites_noTriggerRun]
      simp

/-- Witness for C1 at the concrete tick sequence `[false, true]`. -/
theorem watchdog_failsafe_exactly_once_witness :
    powerOffWrites (watchdog_loop [false, true]) = 1 ∧
    watchdog_loop [false, true] =
      noTriggerRun 1 ++ GrEvent.sentinelCheck true :: shutdown_system_events := by
  refine ⟨?_, (watchdog_failsafe_exactly_once [false, true]).2.1 (by decide)⟩
  have h := (watchdog_failsafe_exactly_once [false, true]).1
  simpa using h

/-- C2: the sentinel check returns true if and only if the file exists, its
mtime is readable, and `now - mtime` is strictly greater than the 36-hour
threshold; when the file is missing, and when reading its metadata fails, it
returns false rather than raising. -/
theorem check_file_modification_true_iff (now : Int) (r : MtimeResult) :
    (check_file_modification now r = true ↔
      ∃ m, r = .found m ∧ now - m > stalenessThreshold) ∧
    check_file_modification now .missing = false ∧
    check_file_modification now .readError = false := by
  refine ⟨?_, rfl, rfl⟩
  cases r with
  | found m => simp [check_file_modification]
  | missing => simp [check_file_modification]
  | readError => simp [check_file_modification]

/-- C9: in watchdog mode, a sampled uptime below 1800 s produces a single
pure delay of exactly `1800 - uptime` seconds before the first sentinel
check (for uptime 600 s, exactly 1200 s); an uptime of at least 1800 s
produces no warm-up delay. The last conjunct records that the loop's first
event on any tick is the sentinel check. -/
theorem gr_warmup_delay (u : Int) (ticks : List Bool) :
    (u < 1800 →
      gr_main_run (some u) ticks =
        GrEvent.sleep (1800 - u) :: watchdog_loop ticks) ∧
    (1800 ≤ u → gr_main_run (some u) ticks = watchdog_loop ticks) ∧
    gr_main_run (some 600) ticks = GrEvent.sleep 1200 :: watchdog_loop ticks ∧
    (∀ b rest, watchdog_loop (b :: rest) =
      GrEvent.sentinelCheck b ::
        (if b then shutdown_system_events
         else GrEvent.sleep 420 :: watchdog_loop rest)) := by
  refine ⟨fun h => ?_, fun h => ?_, ?_, fun b rest => rfl⟩
  · simp [gr_main_run, if_pos h]
  · simp [gr_main_run, if_neg (not_lt.mpr h)]
  · norm_num [gr_main_run]

/-- Witness for C9 at uptime 600 s (delay 1200 s) and 2000 s (no delay). -/
theorem gr_warmup_delay_witness :
    gr_main_run (some 600) [] = [GrEvent.sleep 1200] ∧
    gr_main_run (some 2000) [] = [] := by
  constructor
  · have h := (gr_warmup_delay 600 []).1 (by norm_num)
    simpa [watchdog_loop] using h
  · have h := (gr_warmup_delay 2000 []).2.1 (by norm_num)
    simpa [watchdog_loop] using h

/-! ## install_self (same structure in `myne.py` and `gr.py`)

`install_self` hashes the running script; if the target exists and its hash
matches, it returns `False` having done nothing.  Otherwise it copies the
script to the target, writes the systemd service descriptor, and issues
three `systemctl` calls (run without `check=True`, so their exit codes never
raise), returning `True`.  Any exception — failure to hash either file, a
failing copy (`subprocess.run(..., check=True)` in `myne.py`,
`shutil.copy` in `gr.py`), or a failing service-file write — is caught and
reported as the same value `False`. -/

/-- Abstract world supplying the outcomes of `install_self`'s external
operations: the content hash of the running script file (`none` models
hashing raising/failing), whether the install target exists, the content
hash of the target (consulted only when the target exists), and whether the
copy and the service-descriptor write succeed. -/
structure InstallWorld where
  scriptHash : Option Nat
  targetExists : Bool
  targetHash : Option Nat
  copyOk : Bool
  writeOk : Bool
  deriving DecidableEq

/-- Side effects attempted by `install_self`, in program order. -/
inductive InstallEff where
  | copyScript
  | writeServiceFile
  | daemonReload
  | enableService
  | startService
  deriving DecidableEq

/-- The install branch of `install_self` (everything after the up-to-date
check): copy, write the service file, make the three service-manager calls,
return `True`.  A failing copy or write raises; the caller's `except` turns
that into `False` after the effects attempted so far. -/
def do_install (w : InstallWorld) : Bool × List InstallEff :=
  if ¬ w.copyOk then (false, [.copyScript])
  else if ¬ w.writeOk then (false, [.copyScript, .writeServiceFile])
  else (true, [.copyScript, .writeServiceFile, .daemonReload, .enableService,
    .startService])

/-- `install_self` (`myne.py` lines 68–103, `gr.py` lines 61–111): the
Python function's boolean result paired with the trace of attempted side
effects. -/
def install_self (w : InstallWorld) : Bool × List InstallEff :=
  match w.scriptHash with
  | none => (false, [])
  | some currentHash =>
      if w.targetExists then
        match w.targetHash with
        | none => (false, [])
        | some installedHash =>
            if currentHash = installedHash then (false, [])
            else do_install w
      else do_install w

/-- The spec's `NOT_NEEDED` situation: the target exists and the two
fingerprints are computed and equal. -/
def install_not_needed (w : InstallWorld) : Bool :=
  w.targetExists && w.scriptHash.isSome && (w.scriptHash == w.targetHash)

/-- The situations in which `install_self` must actually install: the
running script's hash is computed and either the target is absent or its
hash is computed and differs. -/
def install_needed (w : InstallWorld) : Bool :=
  w.scriptHash.isSome &&
    (!w.targetExists || (w.targetHash.isSome && w.scriptHash != w.targetHash))

/-- The spec's `FAIL` situations: some step of `install_self` raises —
hashing the running script fails, the target exists but hashing it fails,
or an install is needed and the copy or the service-file write fails. -/
def install_fail_state (w : InstallWorld) : Bool :=
  w.scriptHash.isNone || (w.targetExists && w.targetHash.isNone) ||
    (install_needed w && (!w.copyOk || !w.writeOk))

lemma do_install_fst (w : InstallWorld) :
    (do_install w).1 = true ↔ (w.copyOk = true ∧ w.writeOk = true) := by
  rcases w with ⟨sh, te, th, co, wo⟩
  cases co <;> cases wo <;> simp [do_install]

lemma install_self_fst_true_iff (w : InstallWorld) :
    (install_self w).1 = true ↔
      (install_needed w = true ∧ w.copyOk = true ∧ w.writeOk = true) := by
  rcases w with ⟨sh, te, th, co, wo⟩
  cases sh with
  | none => simp [install_self, install_needed]
  | some a =>
      cases te with
      | false =>
          simp only [install_self, if_neg Bool.false_ne_true]
          simp [install_needed, do_install_fst]
      | true =>
          cases th with
          | none => simp [install_self, install_needed]
          | some b =>
              by_cases hab : a = b
              · subst hab
                simp [install_self, install_needed]
              · simp only [install_self, if_pos rfl, if_neg hab]
                simp [install_needed, do_install_fst, hab, bne_iff_ne]

/-- C3: whenever the target path exists and the running program's
fingerprint equals the target's fingerprint, `install_self` returns `False`
(the code's `NOT_NEEDED`) and performs no copy, no service-descriptor
write, and no service-manager call: its effect trace is empty. -/
theorem install_self_idempotent (w : InstallWorld) (h : Nat)
    (hex : w.targetExists = true) (hs : w.scriptHash = some h)
    (ht : w.targetHash = some h) :
    install_self w = (false, []) := by
  rcases w with ⟨sh, te, th, co, wo⟩
  simp only at hex hs ht
  subst hex hs ht
  simp [install_self]

/-- Witness for C3: a concrete world with matching fingerprints. -/
theorem install_self_idempotent_witness :
    install_self ⟨some 7, true, some 7, true, true⟩ = (false, []) :=
  install_self_idempotent ⟨some 7, true, some 7, true, true⟩ 7 rfl rfl rfl

/-- Counterexample to C5 as stated: a run whose own-file fingerprint fails
(a `FAIL` situation) and a run whose target is already up to date (the
`NOT_NEEDED` situation) produce identical observable outcomes — the same
returned value `False` and the same empty effect trace — so `FAIL` is not
reported distinctly from `NOT_NEEDED`. -/
theorem install_self_fail_not_distinct :
    install_fail_state ⟨none, true, some 1, true, true⟩ = true ∧
    install_not_needed ⟨some 1, true, some 1, true, true⟩ = true ∧
    install_self ⟨none, true, some 1, true, true⟩ = (false, []) ∧
    install_self ⟨some 1, true, some 1, true, true⟩ = (false, []) ∧
    install_self ⟨none, true, some 1, true, true⟩ =
      install_self ⟨some 1, true, some 1, true, true⟩ := by
  decide

/-- C5 amended: `install_self` has only two observable outcomes, `True`
(installed) and `False`; every failure — own-file fingerprint failure,
target fingerprint failure, and any step failing after partial completion —
is reported as `False`, the same value as `NOT_NEEDED`, not as a distinct
`FAIL` outcome. -/
theorem install_self_two_outcomes (w : InstallWorld) :
    (install_fail_state w = true → (install_self w).1 = false) ∧
    (install_not_needed w = true → (install_self w).1 = false) ∧
    ((install_self w).1 = true ↔
      (install_needed w = true ∧ w.copyOk = true ∧ w.writeOk = true)) := by
  refine ⟨fun hf => ?_, fun hn => ?_, install_self_fst_true_iff w⟩
  · cases hv : (install_self w).1 with
    | false => rfl
    | true =>
        exfalso
        obtain ⟨hneed, hc, hw⟩ := (install_self_fst_true_iff w).1 hv
        have h1 : w.scriptHash.isSome = true := by
          have := hneed
          simp [install_needed] at this
          exact this.1
        simp [install_fail_state, hneed, hc, hw,
          Option.isNone_iff_eq_none] at hf
        rcases hf with hf | ⟨hte, hth⟩
        · simp [hf] at h1
        · simp [install_needed, hte, hth] at hneed
  · cases hv : (install_self w).1 with
    | false => rfl
    | true =>
        exfalso
        obtain ⟨hneed, hc, hw⟩ := (install_self_fst_true_iff w).1 hv
        simp [install_not_needed] at hn
        obtain ⟨⟨hte, hsome⟩, heq⟩ := hn
        simp [install_needed, hte] at hneed
        exact hneed.2.2 heq

/-- Witness for C5's amended theorem: a failing world and a not-needed
world both return `False`. -/
theorem install_self_two_outcomes_witness :
    (install_self ⟨none, false, none, true, true⟩).1 = false ∧
    (install_self ⟨some 2, true, some 2, true, true⟩).1 = false :=
  ⟨(install_self_two_outcomes ⟨none, false, none, true, true⟩).1 (by decide),
   (install_self_two_outcomes ⟨some 2, true, some 2, true, true⟩).2.1 (by decide)⟩

/-! ## myne.py: resource planner -/

/-- `myne.py CPU_LIMIT_THRESHOLD`. -/
def CPU_LIMIT_THRESHOLD : Int := 8

/-- `myne.py CPU_LIMIT_LOW`: the cpulimit percentage for the throttled
role. -/
def CPU_LIMIT_LOW : Int := 40

/-- `myne.py calculate_threads_and_limits`: partition the CPU count into
`(main_threads, limited_threads, free_threads)`. -/
def calculate_threads_and_limits (cpu_cores : Int) : Int × Int × Int :=
  if cpu_cores ≥ CPU_LIMIT_THRESHOLD then
    (cpu_cores - 2, 1, 1)
  else
    (cpu_cores - 1, 1, 0)

/-- One worker command line of `myne.py create_xmrig_commands`, by role:
`mainCmd m` is `xmrig -o HOST --threads=m --cuda`; `limitedCmd l t` is
`cpulimit -l l -- xmrig -o HOST --threads=t`; `freeCmd t` is
`xmrig -o HOST --threads=t`. -/
inductive XmrigCmd where
  | mainCmd (threads : Int)
  | limitedCmd (cpuLimit : Int) (threads : Int)
  | freeCmd (threads : Int)
  deriving DecidableEq

/-- `myne.py create_xmrig_commands`: one command per role whose thread
count is positive, in role order. -/
def create_xmrig_commands (main_threads limited_threads free_threads : Int) :
    List XmrigCmd :=
  (if main_threads > 0 then [XmrigCmd.mainCmd main_threads] else []) ++
  (if limited_threads > 0 then [XmrigCmd.limitedCmd CPU_LIMIT_LOW 1] else []) ++
  (if free_threads > 0 then [XmrigCmd.freeCmd 1] else [])

/-- Sum of the three allocated thread counts of a plan. -/
def threadSum (p : Int × Int × Int) : Int := p.1 + p.2.1 + p.2.2

/-- The command set of the plan for a given core count. -/
def planCommands (cpu_cores : Int) : List XmrigCmd :=
  create_xmrig_commands (calculate_threads_and_limits cpu_cores).1
    (calculate_threads_and_limits cpu_cores).2.1
    (calculate_threads_and_limits cpu_cores).2.2

/-- Counterexample to C4 as stated: the plan for 8 cores is `(6, 1, 1)`,
whose thread counts sum to 8, not to at most 7 — no whole core is reserved
as headroom at the threshold. -/
theorem plan_eight_no_headroom :
    calculate_threads_and_limits 8 = (6, 1, 1) ∧
    threadSum (calculate_threads_and_limits 8) = 8 ∧
    ¬ threadSum (calculate_threads_and_limits 8) ≤ 8 - 1 := by
  refine ⟨?_, ?_, ?_⟩ <;> decide

/-- C4 amended: for every core count the allocated thread counts sum to
exactly `totalCores` — the planner reserves no whole core as headroom at or
above the threshold of 8 (in particular the 8-core plan sums to 8 threads,
not at most 7); the limited role always has exactly 1 thread, throttled in
the spawned command set to the 40% CPU ceiling. -/
theorem plan_thread_sum (cpu_cores : Int) :
    threadSum (calculate_threads_and_limits cpu_cores) = cpu_cores ∧
    (calculate_threads_and_limits cpu_cores).2.1 = 1 ∧
    XmrigCmd.limitedCmd 40 1 ∈ planCommands cpu_cores := by
  by_cases h : cpu_cores ≥ CPU_LIMIT_THRESHOLD
  · simp [threadSum, calculate_threads_and_limits, planCommands,
      create_xmrig_commands, CPU_LIMIT_LOW, h]
    ring_nf
  · simp [threadSum, calculate_threads_and_limits, planCommands,
      create_xmrig_commands, CPU_LIMIT_LOW, h]

/-- C8: below the threshold of 8 the plan is `(totalCores - 1, 1, 0)` (no
free role); at or above 8 it is `(totalCores - 2, 1, 1)`; a role appears in
the spawned command set exactly when its allocated thread count is
positive; and the 1-core plan spawns no main-role command and exactly one
limited-role command. -/
theorem plan_shape_and_omission :
    (∀ c : Int, c < 8 → calculate_threads_and_limits c = (c - 1, 1, 0)) ∧
    (∀ c : Int, 8 ≤ c → calculate_threads_and_limits c = (c - 2, 1, 1)) ∧
    (∀ m l f : Int,
      ((∃ t, XmrigCmd.mainCmd t ∈ create_xmrig_commands m l f) ↔ 0 < m) ∧
      ((∃ a b, XmrigCmd.limitedCmd a b ∈ create_xmrig_commands m l f) ↔ 0 < l) ∧
      ((∃ t, XmrigCmd.freeCmd t ∈ create_xmrig_commands m l f) ↔ 0 < f)) ∧
    planCommands 1 = [XmrigCmd.limitedCmd 40 1] := by
  refine ⟨fun c hc => ?_, fun c hc => ?_, fun m l f => ?_, by decide⟩
  · simp [calculate_threads_and_limits, CPU_LIMIT_THRESHOLD, not_le.mpr hc]
  · simp [calculate_threads_and_limits, CPU_LIMIT_THRESHOLD, hc]
  · refine ⟨?_, ?_, ?_⟩ <;>
      by_cases hm : m > 0 <;> by_cases hl : l > 0 <;> by_cases hf : f > 0 <;>
        simp [create_xmrig_commands, hm, hl, hf]

/-- Witness for C8 at concrete core counts 4 and 8. -/
theorem plan_shape_and_omission_witness :
    calculate_threads_and_limits 4 = (3, 1, 0) ∧
    calculate_threads_and_limits 8 = (6, 1, 1) ∧
    planCommands 1 = [XmrigCmd.limitedCmd 40 1] :=
  ⟨plan_shape_and_omission.1 4 (by norm_num),
   plan_shape_and_omission.2.1 8 (by norm_num),
   plan_shape_and_omission.2.2.2⟩

/-! ## myne.py: worker supervisor loop

The `while True` loop of `myne.py main` is modelled per tick: each tick
checks `check_xmrig_running()`; when nothing is running it spawns every
command of the plan, checking `check_xmrig_running()` again after each
spawn and only logging when that verification fails.  The tick then sleeps;
a `KeyboardInterrupt` delivered at the sleep is caught and leads to
`kill_xmrig()` and `sys.exit(0)`, and any `Exception` escaping the loop
body reaches the top-level handler, which calls `kill_xmrig()` and
`sys.exit(1)`. -/

/-- Observable worker-supervisor events: starting one worker command, and a
post-spawn `check_xmrig_running` verification with its result. -/
inductive MEvent where
  | spawn (c : XmrigCmd)
  | verify (ok : Bool)
  deriving DecidableEq

/-- `myne.py kill_xmrig`: `pgrep xmrig` returns exit code 0 exactly when
the match list is non-empty, and then every matched pid is killed; the
returned list is the pids signalled. -/
def kill_xmrig (procs : List Nat) : List Nat :=
  if procs.isEmpty then [] else procs

/-- The spawn loop of a reconcile tick: for each command, start it, then
run the post-spawn `check_xmrig_running` verification, whose result is
supplied by the oracle `v` (indexed by spawn number). -/
def spawn_all (cmds : List XmrigCmd) (v : Nat → Bool) (i : Nat) : List MEvent :=
  match cmds with
  | [] => []
  | c :: rest => .spawn c :: .verify (v i) :: spawn_all rest v (i + 1)

/-- One tick of `myne.py main`'s loop: if a managed process is observed
running, nothing is spawned; otherwise every command of the plan is spawned
with a verification after each. -/
def reconcile_tick (running : Bool) (cmds : List XmrigCmd) (v : Nat → Bool) :
    List MEvent :=
  if running then [] else spawn_all cmds v 0

/-- How a tick of the supervisor loop ends: the sleep completes normally, a
`KeyboardInterrupt` arrives at the sleep, or an `Exception` escapes the
tick body to the top-level handler. -/
inductive TickEnd where
  | normal
  | interrupt
  | err
  deriving DecidableEq

/-- One observed tick of the worker loop: the initial
`check_xmrig_running` result, the post-spawn verification oracle, and how
the tick ends. -/
structure WTick where
  running : Bool
  v : Nat → Bool
  ending : TickEnd

/-- The worker loop of `myne.py main` over a finite observed tick sequence:
returns the event trace and, if the loop terminated, the pids passed to
`kill -9` together with the process exit code (`sys.exit(0)` after an
interrupt, `sys.exit(1)` from the top-level exception handler). `none`
means the loop was still running when observation ended. -/
def worker_loop (cmds : List XmrigCmd) (procs : List Nat) :
    List WTick → List MEvent × Option (List Nat × Nat)
  | [] => ([], none)
  | t :: rest =>
      let evs := reconcile_tick t.running cmds t.v
      match t.ending with
      | .normal =>
          let r := worker_loop cmds procs rest
          (evs ++ r.1, r.2)
      | .interrupt => (evs, some (kill_xmrig procs, 0))
      | .err => (evs, some (kill_xmrig procs, 1))

/-- The spawned commands of an event trace. -/
def spawnsOf (evs : List MEvent) : List XmrigCmd :=
  evs.filterMap fun e => match e with | .spawn c => some c | _ => none

/-- The verification results of an event trace. -/
def verifiesOf (evs : List MEvent) : List Bool :=
  evs.filterMap fun e => match e with | .verify b => some b | _ => none

lemma kill_xmrig_eq (procs : List Nat) : kill_xmrig procs = procs := by
  cases procs <;> simp [kill_xmrig]

lemma spawnsOf_spawn_all (cmds : List XmrigCmd) (v : Nat → Bool) (i : Nat) :
    spawnsOf (spawn_all cmds v i) = cmds := by
  induction cmds generalizing i with
  | nil => rfl
  | cons c rest ih => simp [spawn_all, spawnsOf] at ih ⊢; exact ih _

lemma verifiesOf_spawn_all_length (cmds : List XmrigCmd) (v : Nat → Bool)
    (i : Nat) :
    (verifiesOf (spawn_all cmds v i)).length = cmds.length := by
  induction cmds generalizing i with
  | nil => rfl
  | cons c rest ih => simp [spawn_all, verifiesOf] at ih ⊢; exact ih _

lemma spawn_all_getElem (cmds : List XmrigCmd) (v : Nat → Bool) :
    ∀ (i k : Nat) (hk : k < cmds.length),
      (spawn_all cmds v i)[2 * k]? = some (.spawn (cmds.get ⟨k, hk⟩)) ∧
      (spawn_all cmds v i)[2 * k + 1]? = some (.verify (v (i + k))) := by
  induction cmds with
  | nil => intro i k hk; simp at hk
  | cons c rest ih =>
      intro i k hk
      cases k with
      | zero => simp [spawn_all]
      | succ k' =>
          have hk' : k' < rest.length := by simpa using Nat.lt_of_succ_lt_succ hk
          have h := ih (i + 1) k' hk'
          have e1 : 2 * (k' + 1) = 2 * k' + 1 + 1 := by omega
          have e2 : i + (k' + 1) = i + 1 + k' := by omega
          refine ⟨?_, ?_⟩
          · rw [e1]
            simpa [spawn_all] using h.1
          · rw [e1, e2]
            simpa [spawn_all] using h.2

lemma worker_loop_none_iff (cmds : List XmrigCmd) (procs : List Nat)
    (ticks : List WTick) :
    (worker_loop cmds procs ticks).2 = none ↔
      ∀ t ∈ ticks, t.ending = TickEnd.normal := by
  induction ticks with
  | nil => simp [worker_loop]
  | cons t rest ih =>
      cases he : t.ending <;> simp [worker_loop, he, ih]

/-- C6: in worker mode, when no managed worker process is observed running,
a reconcile tick spawns one process per command of the plan (one per
non-empty role) and attempts a post-spawn liveness verification after each
spawn, regardless of the verification oracle's answers — a failed
verification for one role does not prevent spawning the remaining roles —
and the supervisor loop never terminates because of it: it terminates only
on an interrupt or on an escaping error. -/
theorem reconcile_spawns_full_plan (c : Int) (cmds : List XmrigCmd)
    (v : Nat → Bool) (hc : cmds = planCommands c) :
    spawnsOf (reconcile_tick false cmds v) = cmds ∧
    (verifiesOf (reconcile_tick false cmds v)).length = cmds.length ∧
    (∀ k (hk : k < cmds.length),
      (reconcile_tick false cmds v)[2 * k]? =
        some (.spawn (cmds.get ⟨k, hk⟩)) ∧
      (reconcile_tick false cmds v)[2 * k + 1]? = some (.verify (v k))) ∧
    (∀ (procs : List Nat) (ticks : List WTick),
      (worker_loop cmds procs ticks).2 = none ↔
        ∀ t ∈ ticks, t.ending = TickEnd.normal) := by
  subst hc
  refine ⟨?_, ?_, fun k hk => ?_, fun procs ticks => worker_loop_none_iff _ _ _⟩
  · simpa [reconcile_tick] using spawnsOf_spawn_all (planCommands c) v 0
  · simpa [reconcile_tick] using verifiesOf_spawn_all_length (planCommands c) v 0
  · have h := spawn_all_getElem (planCommands c) v 0 k hk
    simpa [reconcile_tick] using h

/-- Witness for C6: the 4-core plan has two non-empty roles; with an
all-failing verification oracle both roles are still spawned. -/
theorem reconcile_spawns_full_plan_witness :
    planCommands 4 = [XmrigCmd.mainCmd 3, XmrigCmd.limitedCmd 40 1] ∧
    spawnsOf (reconcile_tick false (planCommands 4) (fun _ => false)) =
      planCommands 4 :=
  ⟨by decide,
   (reconcile_spawns_full_plan 4 (planCommands 4) (fun _ => false) rfl).1⟩

/-- C7: in worker mode, an interrupt arriving at the tick's sleep leads to
`kill_xmrig` of all managed worker pids followed by termination with exit
code 0; an error escaping the loop body leads to `kill_xmrig` followed by
termination with the non-zero exit code 1. -/
theorem worker_interrupt_and_error (cmds : List XmrigCmd) (procs : List Nat)
    (pre : List WTick) (t : WTick) (rest : List WTick)
    (hpre : ∀ u ∈ pre, u.ending = TickEnd.normal) :
    (t.ending = TickEnd.interrupt →
      (worker_loop cmds procs (pre ++ t :: rest)).2 = some (procs, 0)) ∧
    (t.ending = TickEnd.err →
      (worker_loop cmds procs (pre ++ t :: rest)).2 = some (procs, 1) ∧
        (1 : Nat) ≠ 0) := by
  induction pre with
  | nil =>
      constructor <;> intro he <;>
        simp [worker_loop, he, kill_xmrig_eq]
  | cons u pre ih =>
      have hu : u.ending = TickEnd.normal := hpre u (by simp)
      have hpre' : ∀ u' ∈ pre, u'.ending = TickEnd.normal := fun u' h =>
        hpre u' (by simp [h])
      have h := ih hpre'
      constructor <;> intro he
      · simpa [worker_loop, hu] using h.1 he
      · simpa [worker_loop, hu] using h.2 he

/-- Witness for C7 at a one-tick run with two managed pids. -/
theorem worker_interrupt_and_error_witness :
    (worker_loop [] [3, 5] [⟨false, fun _ => true, .interrupt⟩]).2 =
      some ([3, 5], 0) ∧
    (worker_loop [] [3, 5] [⟨false, fun _ => true, .err⟩]).2 =
      some ([3, 5], 1) :=
  ⟨(worker_interrupt_and_error [] [3, 5] [] ⟨false, fun _ => true, .interrupt⟩
      [] (by simp)).1 rfl,
   ((worker_interrupt_and_error [] [3, 5] [] ⟨false, fun _ => true, .err⟩
      [] (by simp)).2 rfl).1⟩

/-! ## gr.py: get_system_uptime

`get_system_uptime` parses the decoded output of `uptime -p` (for example
`"up 2 days, 3 hours, 15 minutes\n"`).  Python strings are modelled as
`List Char`; `str.split(sep)` for a non-empty separator `p0 :: p` is
`splitOnCL p0 p`, substring membership `pat in s` for a pattern `p0 :: p`
is `hasSeq p0 p`, and `int(token)` is `charsToInt`. -/

/-- Worker for `splitOnCL` with explicit fuel (one unit per character
consumed), so that the function is structurally recursive and computable by
the kernel.  The fuel never runs out when it starts at the list length. -/
def splitGo (p0 : Char) (p : List Char) : Nat → List Char → List (List Char)
  | 0, l => [l]
  | _ + 1, [] => [[]]
  | fuel + 1, c :: rest =>
      if c = p0 ∧ p.isPrefixOf rest then
        [] :: splitGo p0 p fuel (rest.drop p.length)
      else
        match splitGo p0 p fuel rest with
        | [] => [[c]]
        | h :: t => (c :: h) :: t

/-- Python `str.split(sep)` on `List Char` for the non-empty separator
`p0 :: p`: splits at each leftmost, non-overlapping occurrence of the
separator. -/
def splitOnCL (p0 : Char) (p : List Char) (l : List Char) : List (List Char) :=
  splitGo p0 p l.length l

/-- Python substring membership `pat in s` for the non-empty pattern
`p0 :: p`. -/
def hasSeq (p0 : Char) (p : List Char) : List Char → Bool
  | [] => false
  | c :: rest => ((c == p0) && p.isPrefixOf rest) || hasSeq p0 p rest

/-- Value of a non-empty all-digit character list. -/
def charsToNatDigits (l : List Char) : Option Nat :=
  if l ≠ [] ∧ l.all Char.isDigit then
    some (l.foldl (fun acc c => acc * 10 + (c.toNat - 48)) 0)
  else none

/-- Python `int(token)` restricted to the token shapes that occur here: an
optional leading minus sign followed by decimal digits; everything else
raises, modelled as `none`. -/
def charsToInt (l : List Char) : Option Int :=
  match l with
  | '-' :: rest => (charsToNatDigits rest).map (fun n => -(n : Int))
  | _ => (charsToNatDigits l).map (fun n => (n : Int))

/-- `gr.py get_system_uptime`, applied to the decoded `uptime -p` output:
if `'hour'` occurs, the hours count is `int` of the last space-separated
token of the text before the first `' hour'`, else 0; likewise for
minutes with `'minute'` and `' minute'`; the result is
`hours * 3600 + minutes * 60`.  A parse failure raises, which the
function's `except` turns into `None`. -/
def get_system_uptime (s : List Char) : Option Int := do
  let hours ← if hasSeq 'h' ['o', 'u', 'r'] s then
      charsToInt ((splitOnCL ' ' []
        ((splitOnCL ' ' ['h', 'o', 'u', 'r'] s).headD [])).getLastD [])
    else pure 0
  let minutes ← if hasSeq 'm' ['i', 'n', 'u', 't', 'e'] s then
      charsToInt ((splitOnCL ' ' []
        ((splitOnCL ' ' ['m', 'i', 'n', 'u', 't', 'e'] s).headD [])).getLastD [])
    else pure 0
  pure (hours * 3600 + minutes * 60)

/-- The fixed pieces of `uptime -p` output: the leading `"up "`, the
separator `", "`, and the words `" hour"` and `" minute"` that follow the
hour and minute counts. -/
def upPre : List Char := ['u', 'p', ' ']

/-- The `", "` separator between `uptime -p` components. -/
def comSp : List Char := [',', ' ']

/-- The `" hour"` word following the hour count. -/
def hourWord : List Char := [' ', 'h', 'o', 'u', 'r']

/-- The `" minute"` word following the minute count. -/
def minuteWord : List Char := [' ', 'm', 'i', 'n', 'u', 't', 'e']

/-! ### Lemmas about the string primitives -/

lemma splitGo_congr (p0 : Char) (p : List Char) :
    ∀ (f₁ f₂ : Nat) (l : List Char), l.length ≤ f₁ → l.length ≤ f₂ →
      splitGo p0 p f₁ l = splitGo p0 p f₂ l := by
  intro f₁
  induction f₁ with
  | zero =>
      intro f₂ l h1 h2
      have hl : l = [] := List.eq_nil_of_length_eq_zero (Nat.le_zero.mp h1)
      subst hl
      cases f₂ <;> rfl
  | succ f ih =>
      intro f₂ l h1 h2
      cases l with
      | nil => cases f₂ <;> rfl
      | cons c rest =>
          cases f₂ with
          | zero => simp at h2
          | succ f' =>
              simp only [List.length_cons] at h1 h2
              simp only [splitGo]
              by_cases hc : c = p0 ∧ p.isPrefixOf rest
              · rw [if_pos hc, if_pos hc]
                have hd : (rest.drop p.length).length ≤ f := by
                  simp only [List.length_drop]; omega
                have hd' : (rest.drop p.length).length ≤ f' := by
                  simp only [List.length_drop]; omega
                rw [ih f' _ hd hd']
              · rw [if_neg hc, if_neg hc]
                rw [ih f' rest (by omega) (by omega)]

lemma splitOnCL_cons (p0 : Char) (p : List Char) (c : Char) (rest : List Char) :
    splitOnCL p0 p (c :: rest) =
      if c = p0 ∧ p.isPrefixOf rest then
        [] :: splitOnCL p0 p (rest.drop p.length)
      else
        match splitOnCL p0 p rest with
        | [] => [[c]]
        | h :: t => (c :: h) :: t := by
  show splitGo p0 p (c :: rest).length (c :: rest) = _
  simp only [List.length_cons, splitGo]
  by_cases hc : c = p0 ∧ p.isPrefixOf rest
  · rw [if_pos hc, if_pos hc,
      splitGo_congr p0 p rest.length (rest.drop p.length).length
        (rest.drop p.length) (by simp only [List.length_drop]; omega)
        (le_refl _)]
    rfl
  · rw [if_neg hc, if_neg hc]
    rfl

lemma splitOnCL_ne_nil (p0 : Char) (p : List Char) (l : List Char) :
    splitOnCL p0 p l ≠ [] := by
  cases l with
  | nil => simp [splitOnCL, splitGo]
  | cons c rest =>
      rw [splitOnCL_cons]
      by_cases hc : c = p0 ∧ p.isPrefixOf rest
      · simp [hc]
      · rw [if_neg hc]
        cases h : splitOnCL p0 p rest <;> simp

lemma isPrefixOf_append_self (p b : List Char) :
    p.isPrefixOf (p ++ b) = true := by
  induction p with
  | nil => simp [List.isPrefixOf]
  | cons c cs ih => simp [List.isPrefixOf, ih]

lemma splitOnCL_append_first (p0 p1 : Char) (p a b : List Char)
    (hne : p1 ≠ p0) (ha : p1 ∉ a) :
    splitOnCL p0 (p1 :: p) (a ++ (p0 :: p1 :: p) ++ b) =
      a :: splitOnCL p0 (p1 :: p) b := by
  induction a with
  | nil =>
      have h1 : ([] : List Char) ++ (p0 :: p1 :: p) ++ b =
          p0 :: ((p1 :: p) ++ b) := by simp
      rw [h1, splitOnCL_cons,
        if_pos ⟨rfl, isPrefixOf_append_self (p1 :: p) b⟩]
      rw [List.drop_left]
  | cons c a' ih =>
      have h1 : (c :: a') ++ (p0 :: p1 :: p) ++ b =
          c :: (a' ++ (p0 :: p1 :: p) ++ b) := by simp
      rw [h1, splitOnCL_cons]
      have hcond : ¬(c = p0 ∧ (p1 :: p).isPrefixOf (a' ++ (p0 :: p1 :: p) ++ b)) := by
        rintro ⟨hc, hpre⟩
        cases a' with
        | nil =>
            have h2 : ([] : List Char) ++ (p0 :: p1 :: p) ++ b =
                p0 :: ((p1 :: p) ++ b) := by simp
            rw [h2] at hpre
            simp [List.isPrefixOf] at hpre
            exact hne hpre.1
        | cons d a'' =>
            simp only [List.cons_append] at hpre
            simp [List.isPrefixOf] at hpre
            exact ha (by simp [hpre.1])
      rw [if_neg hcond]
      have ih' := ih (fun hm => ha (List.mem_cons_of_mem c hm))
      rw [ih']

lemma splitOnCL_single_nosep (p0 : Char) (l : List Char) (h : p0 ∉ l) :
    splitOnCL p0 [] l = [l] := by
  induction l with
  | nil => rfl
  | cons c rest ih =>
      rw [splitOnCL_cons]
      have hc : ¬(c = p0 ∧ ([] : List Char).isPrefixOf rest) := by
        rintro ⟨hc0, -⟩
        exact h (by simp [hc0])
      rw [if_neg hc, ih (fun hm => h (List.mem_cons_of_mem c hm))]

lemma splitOnCL_single_len2 (p0 : Char) (l : List Char) (h : p0 ∈ l) :
    2 ≤ (splitOnCL p0 [] l).length := by
  induction l with
  | nil => simp at h
  | cons c rest ih =>
      rw [splitOnCL_cons]
      by_cases hc : c = p0 ∧ ([] : List Char).isPrefixOf rest
      · rw [if_pos hc]
        simp only [List.length_cons]
        have h0 := List.length_pos.mpr
          (splitOnCL_ne_nil p0 [] (rest.drop ([] : List Char).length))
        omega
      · rw [if_neg hc]
        have hrest : p0 ∈ rest := by
          rcases List.mem_cons.mp h with h1 | h1
          · exact absurd ⟨h1.symm, by simp [List.isPrefixOf]⟩ hc
          · exact h1
        have h2 := ih hrest
        cases hsp : splitOnCL p0 [] rest with
        | nil => exact absurd hsp (splitOnCL_ne_nil _ _ _)
        | cons h1 t =>
            rw [hsp] at h2
            simp only [List.length_cons] at h2 ⊢
            omega

lemma getLastD_irrel {α : Type} (l : List α) (hl : l ≠ []) (d d' : α) :
    l.getLastD d = l.getLastD d' := by
  cases l with
  | nil => exact absurd rfl hl
  | cons x xs => rw [List.getLastD_cons, List.getLastD_cons]

lemma splitOnCL_single_getLast (p0 : Char) (a b : List Char) (hb : p0 ∉ b) :
    (splitOnCL p0 [] (a ++ p0 :: b)).getLastD [] = b := by
  induction a with
  | nil =>
      simp only [List.nil_append]
      rw [splitOnCL_cons, if_pos ⟨rfl, by simp [List.isPrefixOf]⟩]
      simp only [List.length_nil, List.drop_zero]
      rw [splitOnCL_single_nosep p0 b hb]
      rfl
  | cons c a' ih =>
      have h1 : (c :: a') ++ p0 :: b = c :: (a' ++ p0 :: b) := by simp
      rw [h1, splitOnCL_cons]
      by_cases hc : c = p0 ∧ ([] : List Char).isPrefixOf (a' ++ p0 :: b)
      · rw [if_pos hc, List.getLastD_cons]
        simp only [List.length_nil, List.drop_zero]
        exact ih
      · rw [if_neg hc]
        cases hsp : splitOnCL p0 [] (a' ++ p0 :: b) with
        | nil => exact absurd hsp (splitOnCL_ne_nil _ _ _)
        | cons h1' t =>
            rw [List.getLastD_cons]
            have hlen := splitOnCL_single_len2 p0 (a' ++ p0 :: b) (by simp)
            rw [hsp] at hlen
            simp only [List.length_cons] at hlen
            have ht : t ≠ [] := by
              intro h0
              rw [h0] at hlen
              simp at hlen
            have ihh := ih
            rw [hsp, List.getLastD_cons] at ihh
            rw [getLastD_irrel t ht (c :: h1') h1']
            exact ihh

lemma hasSeq_append (p0 : Char) (p a b : List Char) :
    hasSeq p0 p (a ++ (p0 :: p) ++ b) = true := by
  induction a with
  | nil =>
      have h1 : ([] : List Char) ++ (p0 :: p) ++ b = p0 :: (p ++ b) := by simp
      rw [h1]
      simp [hasSeq, isPrefixOf_append_self]
  | cons c a' ih =>
      simp only [List.cons_append]
      show (((c == p0) && p.isPrefixOf (a' ++ (p0 :: p) ++ b)) ||
        hasSeq p0 p (a' ++ (p0 :: p) ++ b)) = true
      rw [ih, Bool.or_true]

lemma hasSeq_eq_false (p0 : Char) (p l : List Char) (h : p0 ∉ l) :
    hasSeq p0 p l = false := by
  induction l with
  | nil => rfl
  | cons c rest ih =>
      have hc : (c == p0) = false := by
        simp only [beq_eq_false_iff_ne, ne_eq]
        intro he
        exact h (by simp [he])
      simp [hasSeq, hc, ih (fun hm => h (List.mem_cons_of_mem c hm))]

lemma not_digit_not_mem (c : Char) (hc : c.isDigit = false) (l : List Char)
    (h : l.all Char.isDigit = true) : c ∉ l := by
  intro hm
  have h2 := List.all_eq_true.mp h c hm
  rw [hc] at h2
  exact Bool.false_ne_true h2

lemma not_mem_append {c : Char} {l1 l2 : List Char} (h1 : c ∉ l1)
    (h2 : c ∉ l2) : c ∉ l1 ++ l2 := by
  intro hm
  rcases List.mem_append.mp hm with h | h
  · exact h1 h
  · exact h2 h

lemma not_mem_cons {c d : Char} {l : List Char} (h1 : c ≠ d) (h2 : c ∉ l) :
    c ∉ d :: l := by
  intro hm
  rcases List.mem_cons.mp hm with h | h
  · exact h1 h
  · exact h2 h

/-- The token extracted by `split(sep)[0]` followed by `split(' ')[-1]`,
when the input is (text containing no occurrence of the separator's second
character) ++ sep ++ anything and the space-free token sits right before
the separator. -/
lemma extract_token (p1 : Char) (p a tok b : List Char) (hne : p1 ≠ ' ')
    (hnotin : p1 ∉ a ++ ' ' :: tok) (hsp : ' ' ∉ tok) :
    (splitOnCL ' ' []
      ((splitOnCL ' ' (p1 :: p)
        ((a ++ ' ' :: tok) ++ (' ' :: p1 :: p) ++ b)).headD [])).getLastD [] =
      tok := by
  rw [splitOnCL_append_first ' ' p1 p (a ++ ' ' :: tok) b hne hnotin,
    List.headD_cons]
  exact splitOnCL_single_getLast ' ' a tok hsp

lemma uptime_parse_with_hours
    (dstr hsuf msuf hstr mstr : List Char) (hv mv : Int)
    (hdh : 'h' ∉ dstr) (hdm : 'm' ∉ dstr) (hsm : 'm' ∉ hsuf)
    (hdigH : hstr.all Char.isDigit = true)
    (hdigM : mstr.all Char.isDigit = true)
    (hhv : charsToInt hstr = some hv) (hmv : charsToInt mstr = some mv) :
    get_system_uptime (upPre ++ dstr ++ comSp ++ hstr ++ hourWord ++ hsuf ++
      comSp ++ mstr ++ minuteWord ++ msuf ++ ['\n']) =
      some (hv * 3600 + mv * 60) := by
  have hHh : 'h' ∉ hstr := not_digit_not_mem 'h' (by decide) hstr hdigH
  have hHsp : ' ' ∉ hstr := not_digit_not_mem ' ' (by decide) hstr hdigH
  have hHm : 'm' ∉ hstr := not_digit_not_mem 'm' (by decide) hstr hdigH
  have hMm : 'm' ∉ mstr := not_digit_not_mem 'm' (by decide) mstr hdigM
  have hMsp : ' ' ∉ mstr := not_digit_not_mem ' ' (by decide) mstr hdigM
  have hhourIn : hasSeq 'h' ['o', 'u', 'r'] (upPre ++ dstr ++ comSp ++ hstr ++
      hourWord ++ hsuf ++ comSp ++ mstr ++ minuteWord ++ msuf ++ ['\n']) =
      true := by
    have e : upPre ++ dstr ++ comSp ++ hstr ++ hourWord ++ hsuf ++ comSp ++
        mstr ++ minuteWord ++ msuf ++ ['\n'] =
        (upPre ++ dstr ++ comSp ++ hstr ++ [' ']) ++ ('h' :: ['o', 'u', 'r']) ++
          (hsuf ++ comSp ++ mstr ++ minuteWord ++ msuf ++ ['\n']) := by
      simp [upPre, comSp, hourWord, minuteWord]
    rw [e]
    exact hasSeq_append 'h' ['o', 'u', 'r'] _ _
  have hminuteIn : hasSeq 'm' ['i', 'n', 'u', 't', 'e'] (upPre ++ dstr ++
      comSp ++ hstr ++ hourWord ++ hsuf ++ comSp ++ mstr ++ minuteWord ++
      msuf ++ ['\n']) = true := by
    have e : upPre ++ dstr ++ comSp ++ hstr ++ hourWord ++ hsuf ++ comSp ++
        mstr ++ minuteWord ++ msuf ++ ['\n'] =
        (upPre ++ dstr ++ comSp ++ hstr ++ hourWord ++ hsuf ++ comSp ++ mstr ++
          [' ']) ++ ('m' :: ['i', 'n', 'u', 't', 'e']) ++ (msuf ++ ['\n']) := by
      simp [upPre, comSp, hourWord, minuteWord]
    rw [e]
    exact hasSeq_append 'm' ['i', 'n', 'u', 't', 'e'] _ _
  have hHextract : (splitOnCL ' ' []
      ((splitOnCL ' ' ['h', 'o', 'u', 'r'] (upPre ++ dstr ++ comSp ++ hstr ++
        hourWord ++ hsuf ++ comSp ++ mstr ++ minuteWord ++ msuf ++
        ['\n'])).headD [])).getLastD [] = hstr := by
    have e : upPre ++ dstr ++ comSp ++ hstr ++ hourWord ++ hsuf ++ comSp ++
        mstr ++ minuteWord ++ msuf ++ ['\n'] =
        ((upPre ++ dstr ++ [',']) ++ ' ' :: hstr) ++
          (' ' :: 'h' :: ['o', 'u', 'r']) ++
          (hsuf ++ comSp ++ mstr ++ minuteWord ++ msuf ++ ['\n']) := by
      simp [upPre, comSp, hourWord, minuteWord]
    rw [e]
    have hnotinH : 'h' ∉ (upPre ++ dstr ++ [',']) ++ ' ' :: hstr := by
      simp [upPre, hdh, hHh]
    exact extract_token 'h' ['o', 'u', 'r'] (upPre ++ dstr ++ [',']) hstr _
      (by decide) hnotinH hHsp
  have hMextract : (splitOnCL ' ' []
      ((splitOnCL ' ' ['m', 'i', 'n', 'u', 't', 'e'] (upPre ++ dstr ++ comSp ++
        hstr ++ hourWord ++ hsuf ++ comSp ++ mstr ++ minuteWord ++ msuf ++
        ['\n'])).headD [])).getLastD [] = mstr := by
    have e : upPre ++ dstr ++ comSp ++ hstr ++ hourWord ++ hsuf ++ comSp ++
        mstr ++ minuteWord ++ msuf ++ ['\n'] =
        ((upPre ++ dstr ++ comSp ++ hstr ++ hourWord ++ hsuf ++ [',']) ++
          ' ' :: mstr) ++ (' ' :: 'm' :: ['i', 'n', 'u', 't', 'e']) ++
          (msuf ++ ['\n']) := by
      simp [upPre, comSp, hourWord, minuteWord]
    rw [e]
    have hnotinM : 'm' ∉ (upPre ++ dstr ++ comSp ++ hstr ++ hourWord ++ hsuf ++
        [',']) ++ ' ' :: mstr := by
      simp [upPre, comSp, hourWord, hdm, hHm, hsm, hMm]
    exact extract_token 'm' ['i', 'n', 'u', 't', 'e']
      (upPre ++ dstr ++ comSp ++ hstr ++ hourWord ++ hsuf ++ [',']) mstr _
      (by decide) hnotinM hMsp
  simp only [get_system_uptime, hhourIn, hminuteIn, hHextract, hMextract,
    hhv, hmv]
  simp

lemma uptime_parse_no_hours (dstr msuf mstr : List Char) (mv : Int)
    (hdh : 'h' ∉ dstr) (hdm : 'm' ∉ dstr) (hmsufh : 'h' ∉ msuf)
    (hdigM : mstr.all Char.isDigit = true)
    (hmv : charsToInt mstr = some mv) :
    get_system_uptime (upPre ++ dstr ++ comSp ++ mstr ++ minuteWord ++ msuf ++
      ['\n']) = some (mv * 60) := by
  have hMh : 'h' ∉ mstr := not_digit_not_mem 'h' (by decide) mstr hdigM
  have hMm : 'm' ∉ mstr := not_digit_not_mem 'm' (by decide) mstr hdigM
  have hMsp : ' ' ∉ mstr := not_digit_not_mem ' ' (by decide) mstr hdigM
  have hhourF : hasSeq 'h' ['o', 'u', 'r'] (upPre ++ dstr ++ comSp ++ mstr ++
      minuteWord ++ msuf ++ ['\n']) = false := by
    refine hasSeq_eq_false 'h' ['o', 'u', 'r'] _ ?_
    simp [upPre, comSp, minuteWord, hdh, hMh, hmsufh]
  have hminuteIn : hasSeq 'm' ['i', 'n', 'u', 't', 'e'] (upPre ++ dstr ++
      comSp ++ mstr ++ minuteWord ++ msuf ++ ['\n']) = true := by
    have e : upPre ++ dstr ++ comSp ++ mstr ++ minuteWord ++ msuf ++ ['\n'] =
        (upPre ++ dstr ++ comSp ++ mstr ++ [' ']) ++
          ('m' :: ['i', 'n', 'u', 't', 'e']) ++ (msuf ++ ['\n']) := by
      simp [upPre, comSp, minuteWord]
    rw [e]
    exact hasSeq_append 'm' ['i', 'n', 'u', 't', 'e'] _ _
  have hMextract : (splitOnCL ' ' []
      ((splitOnCL ' ' ['m', 'i', 'n', 'u', 't', 'e'] (upPre ++ dstr ++ comSp ++
        mstr ++ minuteWord ++ msuf ++ ['\n'])).headD [])).getLastD [] =
      mstr := by
    have e : upPre ++ dstr ++ comSp ++ mstr ++ minuteWord ++ msuf ++ ['\n'] =
        ((upPre ++ dstr ++ [',']) ++ ' ' :: mstr) ++
          (' ' :: 'm' :: ['i', 'n', 'u', 't', 'e']) ++ (msuf ++ ['\n']) := by
      simp [upPre, comSp, minuteWord]
    rw [e]
    have hnotinM2 : 'm' ∉ (upPre ++ dstr ++ [',']) ++ ' ' :: mstr := by
      simp [upPre, hdm, hMm]
    exact extract_token 'm' ['i', 'n', 'u', 't', 'e'] (upPre ++ dstr ++ [','])
      mstr _ (by decide) hnotinM2 hMsp
  simp only [get_system_uptime, hhourF, hminuteIn, hMextract, hmv]
  simp

/-- C10: the uptime sample is computed from only the hours and minutes
components of the `uptime -p` description: for every description that
includes a days component (any day/week text free of the letters `h` and
`m`), the parsed value is `hours*3600 + minutes*60` with the days ignored
— and with no hours component it is `minutes*60` — so a host up for days
(for example `"up 2 days, 5 minutes\n"`, parsed as 300 s) is measured as
below the 1800-second warm-up threshold and receives the warm-up sleep. -/
theorem get_system_uptime_ignores_days :
    (∀ (dstr hsuf msuf hstr mstr : List Char) (hv mv : Int),
      'h' ∉ dstr → 'm' ∉ dstr → 'm' ∉ hsuf →
      hstr.all Char.isDigit = true → mstr.all Char.isDigit = true →
      charsToInt hstr = some hv → charsToInt mstr = some mv →
      get_system_uptime (upPre ++ dstr ++ comSp ++ hstr ++ hourWord ++ hsuf ++
        comSp ++ mstr ++ minuteWord ++ msuf ++ ['\n']) =
        some (hv * 3600 + mv * 60)) ∧
    (∀ (dstr msuf mstr : List Char) (mv : Int),
      'h' ∉ dstr → 'm' ∉ dstr → 'h' ∉ msuf →
      mstr.all Char.isDigit = true → charsToInt mstr = some mv →
      get_system_uptime (upPre ++ dstr ++ comSp ++ mstr ++ minuteWord ++
        msuf ++ ['\n']) = some (mv * 60)) ∧
    (∀ ticks, gr_main_run
        (get_system_uptime "up 2 days, 5 minutes\n".toList) ticks =
      GrEvent.sleep 1500 :: watchdog_loop ticks) := by
  refine ⟨fun dstr hsuf msuf hstr mstr hv mv h1 h2 h3 h4 h5 h6 h7 =>
      uptime_parse_with_hours dstr hsuf msuf hstr mstr hv mv h1 h2 h3 h4 h5 h6 h7,
    fun dstr msuf mstr mv h1 h2 h3 h4 h5 =>
      uptime_parse_no_hours dstr msuf mstr mv h1 h2 h3 h4 h5,
    fun ticks => ?_⟩
  have h : get_system_uptime "up 2 days, 5 minutes\n".toList = some 300 := by
    decide
  rw [h]
  norm_num [gr_main_run]

/-- Witness for C10 at `"up 2 days, 3 hours, 15 minutes\n"` and
`"up 2 days, 5 minutes\n"`: the days are dropped. -/
theorem get_system_uptime_ignores_days_witness :
    get_system_uptime "up 2 days, 3 hours, 15 minutes\n".toList =
      some (3 * 3600 + 15 * 60) ∧
    get_system_uptime "up 2 days, 5 minutes\n".toList = some (5 * 60) := by
  constructor
  · have h := get_system_uptime_ignores_days.1 "2 days".toList ['s'] ['s']
      ['3'] ['1', '5'] 3 15 (by decide) (by decide) (by decide) (by decide)
      (by decide) (by decide) (by decide)
    have e : "up 2 days, 3 hours, 15 minutes\n".toList =
        upPre ++ "2 days".toList ++ comSp ++ ['3'] ++ hourWord ++ ['s'] ++
          comSp ++ ['1', '5'] ++ minuteWord ++ ['s'] ++ ['\n'] := by decide
    rw [e]
    exact h
  · have h := get_system_uptime_ignores_days.2.1 "2 days".toList ['s']
      ['5'] 5 (by decide) (by decide) (by decide) (by decide) (by decide)
    have e : "up 2 days, 5 minutes\n".toList =
        upPre ++ "2 days".toList ++ comSp ++ ['5'] ++ minuteWord ++ ['s'] ++
          ['\n'] := by decide
    rw [e]
    exact h

end Myne
